import Mathlib

/-!
Verification of the core of the arxiv-rag-mcp pipeline: the chunking engine
(`_chunk_text` in src/phase1_ingestion.py), the ingestion aggregation loop
(`IngestionPipeline.run`), the answer generator (`QueryPipeline.generate_answer`
in src/phase2_query.py), the MCP connection manager (`connect_server`,
`connect_all`, `disconnect_all` in src/mcp_manager.py), and the run controller
(`main` in main.py).

Texts are modelled as `List Char` (Python `str`), integers as `Int`/`Nat`,
external collaborators as oracle functions passed in as parameters, and the
event order of the run controller as an explicit trace of events.
-/

namespace ArxivRag

/-- Effective index of a Python slice bound `i` for a sequence of length `len`
(step 1): a negative bound counts from the end and is clamped at 0, a
non-negative bound is clamped at `len`. -/
def pySliceIndex (len : Nat) (i : Int) : Nat :=
  if i < 0 then ((len : Int) + i).toNat else min i.toNat len

/-- Python slice `l[start:stop]` (step 1) on a list of characters. -/
def pySlice (l : List Char) (start stop : Int) : List Char :=
  (l.take (pySliceIndex l.length stop)).drop (pySliceIndex l.length start)

/-- Embeds `IngestionPipeline._chunk_text` (src/phase1_ingestion.py:138-148):

    chunks = []; start = 0
    while start < len(text):
        end = start + chunk_size
        chunks.append(text[start:end])
        start = end - overlap
    return chunks

The loop is fuel-indexed: `none` means the loop has not finished within `fuel`
iterations, so `(∀ fuel, … = none)` states non-termination. `start` is an `Int`
because `end - overlap` can go negative for `O > C`. -/
def chunk_text (C O : Nat) (text : List Char) : Nat → Int → Option (List (List Char))
  | 0, start =>
    if start < (text.length : Int) then none else some []
  | f + 1, start =>
    if start < (text.length : Int) then
      (chunk_text C O text f (start + (C : Int) - (O : Int))).map
        (fun rest => pySlice text start (start + (C : Int)) :: rest)
    else some []

/-- The same while loop in its terminating form, for a positive step
`step = C - O`: emit `text[start : start+C]`, advance `start` by `step`. -/
def chunk_text_from (C step : Nat) (text : List Char) (start : Nat) :
    List (List Char) :=
  if _h : start < text.length ∧ 0 < step then
    (text.drop start).take C :: chunk_text_from C step text (start + step)
  else []
termination_by text.length - start
decreasing_by omega

/-- The chunk start offsets named by the spec: `0, C-O, 2(C-O), …` while the
offset is below `L`; there are `⌈L / (C-O)⌉` of them. -/
def spec_starts (C O L : Nat) : List Nat :=
  (List.range ((L + (C - O) - 1) / (C - O))).map (fun k => k * (C - O))

/-- The chunk sequence described by the spec: the substrings
`text[start : start + C]` at each start offset, clipped at the end of text. -/
def spec_chunks (C O : Nat) (text : List Char) : List (List Char) :=
  (spec_starts C O text.length).map (fun s => (text.drop s).take C)

/-- Concatenate an ordered chunk sequence, discarding the `O`-character
prefix of every chunk after the first. -/
def join_overlap (O : Nat) : List (List Char) → List Char
  | [] => []
  | c :: rest => c ++ (rest.map (fun d => d.drop O)).flatten


/-!
Ingestion orchestration (`IngestionPipeline.run`, src/phase1_ingestion.py:12-54).
Per-paper processing (`process_paper`: download, read, chunk, enrich) calls
external collaborators, so it is abstracted as an oracle `process` mapping each
paper to either its enriched chunk list or the exception it raised.
-/

/-- Embeds the per-paper loop of `IngestionPipeline.run` (lines 25-38): for each
paper in order, try `process_paper`; on success extend `all_chunks`, on any
exception log and `continue` to the next paper. -/
def aggregate_chunks {P Ch : Type} (process : P → Except String (List Ch)) :
    List P → List Ch
  | [] => []
  | p :: rest =>
    match process p with
    | .ok cs => cs ++ aggregate_chunks process rest
    | .error _ => aggregate_chunks process rest

/-- Embeds the upsert decision of `IngestionPipeline.run`: process the first
`max_papers` papers, exit early (no upsert call) when the search returned no
papers or when no chunks were produced, otherwise call `upsert_to_pinecone`
once with all aggregated chunks. `none` means the single upsert call never
happens; `some cs` means it receives exactly `cs`. -/
def ingestion_upsert_arg {P Ch : Type} (maxPapers : Nat)
    (process : P → Except String (List Ch)) (papers : List P) :
    Option (List Ch) :=
  if papers.isEmpty then none
  else
    let all := aggregate_chunks process (papers.take maxPapers)
    if all.isEmpty then none else some all


/-!
Answer generation (`QueryPipeline.generate_answer`, src/phase2_query.py:73-114).
The GPT-4 completion client is abstracted as an oracle `complete` mapping the
prompt to either its reply or the exception it raised.
-/

/-- A retrieved match as consumed by `generate_answer`: `text` models the
text entry of the match dict (`none` when the key is absent), `title` the
title entry of its metadata dict. -/
structure ContextChunk where
  text : Option String
  title : Option String

/-- Python truthiness of the text entry in the context list comprehension:
the chunk is included iff its text is present and nonempty. -/
def chunk_has_text (c : ContextChunk) : Bool :=
  match c.text with
  | none => false
  | some s => !(s == "")

/-- One formatted context entry: `[Source: title]` then the chunk text. -/
def format_chunk (c : ContextChunk) : String :=
  "[Source: " ++ c.title.getD "Unknown" ++ "]\n" ++ c.text.getD ""

/-- Embeds the context join of generate_answer: the included chunks formatted and joined by blank lines. -/
def context_text (chunks : List ContextChunk) : String :=
  String.intercalate "\n\n" ((chunks.filter chunk_has_text).map format_chunk)

/-- The fixed fallback answer returned when the grounding context is empty. -/
def fallback_answer : String :=
  "I couldn\x27t find relevant information in the database to answer your question."

/-- The prompt built from the configured topic, the context and the question. -/
def rag_prompt (topic ctx query : String) : String :=
  "You are a helpful AI assistant that answers questions based on academic papers about "
    ++ topic ++ ".\n\nUse ONLY the context provided below to answer the question. "
    ++ "If the context doesn\x27t contain enough information, say so.\n\nCONTEXT:\n"
    ++ ctx ++ "\n\nQUESTION: " ++ query
    ++ "\n\nProvide a concise, well-cited answer. Include paper titles when referencing information."

/-- Result of `generate_answer`: the returned string and whether the completion
collaborator (`self.client.chat.completions.create`) was invoked. -/
structure GenResult where
  answer : String
  llm_called : Bool

/-- Embeds `QueryPipeline.generate_answer`: build the grounding context; if it
is empty return the fixed fallback without calling the model; otherwise call
the model and return its reply, converting a raised exception into an error
answer string. -/
def generate_answer (complete : String → Except String String)
    (topic query : String) (chunks : List ContextChunk) : GenResult :=
  let ctx := context_text chunks
  if ctx = "" then
    { answer := fallback_answer, llm_called := false }
  else
    match complete (rag_prompt topic ctx query) with
    | .ok ans => { answer := ans, llm_called := true }
    | .error e => { answer := "Error generating answer: " ++ e, llm_called := true }


/-!
Connection manager (`MCPManager`, src/mcp_manager.py) and run controller
(`main`, main.py). Subprocess launches, handshakes and releases are external
effects, abstracted as oracles giving the outcome of each step; the registries
(`self.sessions`, `self.stdio_contexts`) and the order of events are modelled
explicitly.
-/

/-- The class of an exception as discriminated by the except arms of main:
`asyncio.TimeoutError`/`TimeoutError`, `KeyboardInterrupt`, or any other
`Exception`. -/
inductive ExcClass
  | timeoutErr
  | keyboardInterrupt
  | otherErr
deriving DecidableEq, Repr

/-- Outcome of one `connect_server` call, step by step:
`ok` — handshake succeeded; `launchFail` — `stdio_client(...).__aenter__()`
raised, before the stdio context is stored, re-raised as `RuntimeError`;
`handshakeTimeout` — `asyncio.wait_for(session.initialize(), timeout=30)`
timed out after the stdio context was stored, re-raised as `TimeoutError`;
`handshakeFail` — `session.initialize()` raised after the stdio context was
stored, re-raised as `RuntimeError`; `interruptedEarly`/`interruptedLate` —
`KeyboardInterrupt` before/after the stdio context was stored, which
`except Exception` does not catch, so it propagates raw. -/
inductive ConnectOutcome
  | ok
  | launchFail
  | handshakeTimeout
  | handshakeFail
  | interruptedEarly
  | interruptedLate
deriving DecidableEq, Repr

/-- The two registries of `MCPManager`: `self.sessions` and
`self.stdio_contexts`, as the lists of server names stored, in insertion
order. -/
structure MCPState where
  sessions : List String
  stdio_contexts : List String
deriving DecidableEq, Repr

/-- The initial registries of `MCPManager.__init__`. -/
def MCPState.empty : MCPState := ⟨[], []⟩

/-- Embeds `MCPManager.connect_server` (src/mcp_manager.py:39-76): enter the
stdio context, store it in `self.stdio_contexts`, initialize the session with
a 30 s timeout, then store the session in `self.sessions`; the returned
`Option ExcClass` is the exception that escapes the call, if any. -/
def connect_server (st : MCPState) (name : String) (o : ConnectOutcome) :
    MCPState × Option ExcClass :=
  match o with
  | .ok => (⟨st.sessions ++ [name], st.stdio_contexts ++ [name]⟩, none)
  | .launchFail => (st, some .otherErr)
  | .handshakeTimeout => (⟨st.sessions, st.stdio_contexts ++ [name]⟩, some .timeoutErr)
  | .handshakeFail => (⟨st.sessions, st.stdio_contexts ++ [name]⟩, some .otherErr)
  | .interruptedEarly => (st, some .keyboardInterrupt)
  | .interruptedLate => (⟨st.sessions, st.stdio_contexts ++ [name]⟩, some .keyboardInterrupt)

/-- Embeds `MCPManager.connect_all` (src/mcp_manager.py:78-86): connect to the
servers strictly sequentially in the declared order; the first failure aborts
the loop and propagates. Returns the final registries, the list of servers
actually attempted (in order) and the escaping exception, if any. -/
def connect_all (oracle : String → ConnectOutcome) (st : MCPState) :
    List String → MCPState × List String × Option ExcClass
  | [] => (st, [], none)
  | n :: rest =>
    let r1 := connect_server st n (oracle n)
    match r1.2 with
    | some e => (r1.1, [n], some e)
    | none =>
      let r2 := connect_all oracle r1.1 rest
      (r2.1, n :: r2.2.1, r2.2.2)

/-- The fixed declared server order of `MCPManager.server_configs`
(src/mcp_manager.py:16-37; Python dicts iterate in insertion order). -/
def server_order : List String := ["arxiv", "pinecone", "notion", "filesystem"]

/-- The release loop of `MCPManager.disconnect_all` (src/mcp_manager.py:104-110):
for each stored stdio context in order, await its `__aexit__`; any exception is
caught, reported, and iteration continues. `release n = some e` means releasing
`n` raises `e`. Returns the caught failures, in order. -/
def release_loop (release : String → Option String) : List String → List (String × String)
  | [] => []
  | n :: rest =>
    match release n with
    | some e => (n, e) :: release_loop release rest
    | none => release_loop release rest

/-- Embeds `MCPManager.disconnect_all` (src/mcp_manager.py:100-114): run the
release loop over all stored stdio contexts, then clear both registries.
Returns the new registries, the list of servers whose release was attempted,
and the failures that were caught (never propagated). -/
def disconnect_all (release : String → Option String) (st : MCPState) :
    MCPState × List String × List (String × String) :=
  (MCPState.empty, st.stdio_contexts, release_loop release st.stdio_contexts)

/-- The registry invariant of claim C10: every server with a stored session
also has a stored stdio context. -/
def MCPState.invariant (st : MCPState) : Prop :=
  ∀ n, n ∈ st.sessions → n ∈ st.stdio_contexts

/-- The phase selector (`config.phase`). -/
inductive Phase
  | ingestion
  | query
  | both
deriving DecidableEq, Repr

/-- Observable events of one run of `main`, in order. -/
inductive Ev
  | connectAttempt (name : String)
  | phaseIngestion
  | phaseQuery
  | cleanup
  | exitCode (code : Nat)
deriving DecidableEq, Repr

/-- The exit code chosen by the except arms of main (main.py:66-78):
`except asyncio.TimeoutError: sys.exit(1)`,
`except KeyboardInterrupt: sys.exit(0)`,
`except Exception: sys.exit(1)`. -/
def exc_exit_code : ExcClass → Nat
  | .timeoutErr => 1
  | .keyboardInterrupt => 0
  | .otherErr => 1

/-- Exit code of the whole run: the code of the handler when an exception escaped
the try body, 0 on normal completion. -/
def err_exit_code : Option ExcClass → Nat
  | some e => exc_exit_code e
  | none => 0

/-- The try body of `main` (main.py:26-64): connect to all servers, then run
the selected phases in the fixed order ingestion-then-query. Returns the
events emitted and the exception that escaped, if any. The phase bodies call
external collaborators, so the outcome of each phase is an oracle parameter
(`none` = completed, `some e` = raised an exception of class `e`). -/
def main_body (servers : List String) (oracle : String → ConnectOutcome)
    (phase : Phase) (iOut qOut : Option ExcClass) : List Ev × Option ExcClass :=
  let res := connect_all oracle MCPState.empty servers
  let evs := res.2.1.map Ev.connectAttempt
  match res.2.2 with
  | some e => (evs, some e)
  | none =>
    let step1 : List Ev × Option ExcClass :=
      if phase = .ingestion ∨ phase = .both then (evs ++ [Ev.phaseIngestion], iOut)
      else (evs, none)
    match step1.2 with
    | some e => (step1.1, some e)
    | none =>
      if phase = .query ∨ phase = .both then (step1.1 ++ [Ev.phaseQuery], qOut)
      else (step1.1, none)

/-- The full event trace of `main` (main.py:14-94): the try body, then the
finally block — which always runs `disconnect_all` — then process exit with
the code chosen by the except arms. -/
def main_trace (servers : List String) (oracle : String → ConnectOutcome)
    (phase : Phase) (iOut qOut : Option ExcClass) : List Ev :=
  (main_body servers oracle phase iOut qOut).1 ++
    [Ev.cleanup, Ev.exitCode (err_exit_code (main_body servers oracle phase iOut qOut).2)]

/-- Abstract duration model of the cleanup path: `disconnect_all` awaits each
release sequentially, so the whole call takes the sum of the release
durations. -/
def seq_release_duration (durations : List Nat) : Nat := durations.sum

/-- main.py:84-87 wraps the single `disconnect_all()` call in
`asyncio.wait_for(..., timeout=10)`: the cleanup completes iff the whole
sequential release loop fits within that one 10 s budget. -/
def cleanup_completes (durations : List Nat) : Bool :=
  seq_release_duration durations ≤ 10

/-- The per-release bound stated by the spec (refinement comparison, written
from the words of the spec, not from the code): every individual release bounded by
its own 10 s timeout. -/
def spec_per_release_bounded (durations : List Nat) : Bool :=
  durations.all (fun d => d ≤ 10)

/-- Oracle of the witness run: the third declared server (`notion`) times out
during its handshake, every other server connects fine. -/
def demo_connect_oracle : String → ConnectOutcome :=
  fun n => if n = "notion" then ConnectOutcome.handshakeTimeout else ConnectOutcome.ok


lemma pySliceIndex_natCast (len n : Nat) : pySliceIndex len (n : Int) = min n len := by
  simp [pySliceIndex]

lemma pySlice_natCast (text : List Char) (start C : Nat) :
    pySlice text (start : Int) ((start : Int) + (C : Int)) = (text.drop start).take C := by
  have h1 : ((start : Int) + (C : Int)) = ((start + C : Nat) : Int) := by push_cast; ring
  rw [pySlice, h1, pySliceIndex_natCast, pySliceIndex_natCast]
  rcases le_or_lt start text.length with hs | hs
  · rw [Nat.min_eq_left hs, List.drop_take]
    rcases le_or_lt (start + C) text.length with hc | hc
    · rw [Nat.min_eq_left hc]
      congr 1
      omega
    · rw [Nat.min_eq_right (le_of_lt hc)]
      rw [List.take_of_length_le (by simp), List.take_of_length_le (by simp; omega)]
  · rw [Nat.min_eq_right (le_of_lt hs)]
    rw [List.drop_eq_nil_of_le (by simp), List.drop_eq_nil_of_le (le_of_lt hs)]
    simp

lemma chunk_text_eq_from (C O : Nat) (hO : O < C) (text : List Char) :
    ∀ fuel start : Nat, text.length < start + fuel →
      chunk_text C O text fuel (start : Int) =
        some (chunk_text_from C (C - O) text start) := by
  intro fuel
  induction fuel with
  | zero =>
    intro start h
    rw [chunk_text, if_neg (by omega)]
    rw [chunk_text_from, dif_neg (by omega)]
  | succ f ih =>
    intro start h
    by_cases hs : start < text.length
    · rw [chunk_text, if_pos (by omega)]
      have harg : (start : Int) + (C : Int) - (O : Int) = ((start + (C - O) : Nat) : Int) := by
        push_cast
        omega
      rw [harg, ih (start + (C - O)) (by omega), Option.map_some', pySlice_natCast]
      conv_rhs => rw [chunk_text_from, dif_pos ⟨hs, by omega⟩]
    · rw [chunk_text, if_neg (by omega)]
      rw [chunk_text_from, dif_neg (by omega)]

lemma chunk_text_from_eq_range (C step : Nat) (hstep : 0 < step) (text : List Char) :
    ∀ d start, text.length - start ≤ d →
      chunk_text_from C step text start =
        (List.range ((text.length - start + step - 1) / step)).map
          (fun k => (text.drop (start + k * step)).take C) := by
  intro d
  induction d with
  | zero =>
    intro start h
    rw [chunk_text_from, dif_neg (by omega)]
    have h0 : text.length - start = 0 := by omega
    rw [h0, Nat.div_eq_of_lt (by omega)]
    simp
  | succ d ih =>
    intro start h
    by_cases hs : start < text.length
    · rw [chunk_text_from, dif_pos ⟨hs, hstep⟩]
      rw [ih (start + step) (by omega)]
      have hN : (text.length - start + step - 1) / step
          = (text.length - (start + step) + step - 1) / step + 1 := by
        have h1 : text.length - start + step - 1
            = (text.length - start - 1) + step := by omega
        rw [h1, Nat.add_div_right _ hstep]
        congr 1
        rcases le_or_lt step (text.length - start) with hc | hc
        · congr 1
          omega
        · rw [Nat.div_eq_of_lt (by omega), Nat.div_eq_of_lt (by omega)]
      rw [hN, List.range_succ_eq_map]
      simp only [List.map_cons, List.map_map]
      congr 1
      · rw [Nat.zero_mul, Nat.add_zero]
      · refine List.map_congr_left (fun k _ => ?_)
        simp only [Function.comp_apply]
        congr 2
        simp only [Nat.succ_eq_add_one]
        ring
    · rw [chunk_text_from, dif_neg (by omega)]
      have h0 : text.length - start = 0 := by omega
      rw [h0, Nat.div_eq_of_lt (by omega)]
      simp

lemma flatten_drop_chunk_text_from (C O : Nat) (hO : O < C) (text : List Char) :
    ∀ d start, text.length - start ≤ d →
      ((chunk_text_from C (C - O) text start).map (fun c => c.drop O)).flatten
        = text.drop (start + O) := by
  intro d
  induction d with
  | zero =>
    intro start h
    rw [chunk_text_from, dif_neg (by omega)]
    rw [List.drop_eq_nil_of_le (by omega)]
    rfl
  | succ d ih =>
    intro start h
    by_cases hs : start < text.length
    · rw [chunk_text_from, dif_pos ⟨hs, by omega⟩]
      simp only [List.map_cons, List.flatten_cons]
      rw [ih (start + (C - O)) (by omega)]
      rw [List.drop_take, List.drop_drop]
      have h2 : start + (C - O) + O = start + O + (C - O) := by omega
      rw [h2, List.drop_take_append_drop]
    · rw [chunk_text_from, dif_neg (by omega)]
      rw [List.drop_eq_nil_of_le (by omega)]
      rfl

lemma join_overlap_chunk_text_from (C O : Nat) (hO : O < C) (text : List Char) :
    join_overlap O (chunk_text_from C (C - O) text 0) = text := by
  rcases Nat.eq_zero_or_pos text.length with h0 | hpos
  · rw [chunk_text_from, dif_neg (by omega)]
    rw [join_overlap]
    exact (List.length_eq_zero.mp h0).symm
  · rw [chunk_text_from, dif_pos ⟨hpos, by omega⟩]
    rw [join_overlap]
    rw [flatten_drop_chunk_text_from C O hO text (text.length - (0 + (C - O))) (0 + (C - O))
      (le_refl _)]
    have h1 : 0 + (C - O) + O = C := by omega
    rw [h1, List.drop_zero, List.take_append_drop]

lemma chunk_text_stuck (C O : Nat) (hO : C ≤ O) (text : List Char) :
    ∀ fuel, ∀ start : Int, start < (text.length : Int) →
      chunk_text C O text fuel start = none := by
  intro fuel
  induction fuel with
  | zero =>
    intro start hs
    rw [chunk_text, if_pos hs]
  | succ f ih =>
    intro start hs
    rw [chunk_text, if_pos hs, ih (start + C - O) (by omega)]
    rfl

/-- Claim C1 (code_bug evidence): for every chunk size `C > 0`, overlap `O ≥ C`
and nonempty text, the `_chunk_text` while loop never finishes, at any fuel
bound: the code contains no `InvalidChunkingConfig` validation at all and
diverges instead of failing. -/
theorem chunking_invalid_overlap_diverges (C O : Nat) (text : List Char)
    (hC : 0 < C) (hO : C ≤ O) (hne : text ≠ []) :
    ∀ fuel, chunk_text C O text fuel 0 = none := by
  intro fuel
  have hlen : 0 < text.length := List.length_pos.mpr hne
  exact chunk_text_stuck C O hO text fuel 0 (by omega)

theorem chunking_invalid_overlap_diverges_witness :
    0 < 1 ∧ 1 ≤ 1 ∧ "A".data ≠ [] ∧ chunk_text 1 1 "A".data 100 0 = none :=
  ⟨by decide, by decide, by decide,
    chunking_invalid_overlap_diverges 1 1 "A".data (by decide) (by decide) (by decide) 100⟩

/-- Claim C2: for every text, `C > 0` and `0 ≤ O < C`, the `_chunk_text` loop
terminates (any fuel beyond the text length suffices) and returns exactly the
substrings `text[start : start + C]` for `start = 0, C-O, 2(C-O), …` while
`start < L`, the last chunk clipped to the end of the text. -/
theorem chunking_valid_config_returns_spec_sequence (C O fuel : Nat) (text : List Char)
    (hC : 0 < C) (hO : O < C) (hfuel : text.length < fuel) :
    chunk_text C O text fuel 0 = some (spec_chunks C O text) := by
  have h := chunk_text_eq_from C O hO text fuel 0 (by omega)
  rw [Nat.cast_zero] at h
  rw [h]
  congr 1
  rw [chunk_text_from_eq_range C (C - O) (by omega) text text.length 0 (by omega)]
  rw [spec_chunks, spec_starts, List.map_map, Nat.sub_zero]
  refine List.map_congr_left (fun k _ => ?_)
  simp only [Function.comp_apply]
  rw [Nat.zero_add]

theorem chunking_valid_config_returns_spec_sequence_witness :
    0 < 4 ∧ 1 < 4 ∧ "ABCDEFGHIJ".data.length < 11 ∧
      chunk_text 4 1 "ABCDEFGHIJ".data 11 0 = some (spec_chunks 4 1 "ABCDEFGHIJ".data) ∧
      spec_chunks 4 1 "ABCDEFGHIJ".data = ["ABCD".data, "DEFG".data, "GHIJ".data, "J".data] :=
  ⟨by decide, by decide, by decide,
    chunking_valid_config_returns_spec_sequence 4 1 11 "ABCDEFGHIJ".data
      (by decide) (by decide) (by decide),
    by decide⟩

/-- Claim C3: for every text, `C > 0` and `0 ≤ O < C`, the chunk sequence
produced by `_chunk_text`, concatenated while discarding the `O`-character
prefix of every chunk after the first, reconstructs the original text. -/
theorem chunking_overlap_roundtrip (C O fuel : Nat) (text : List Char)
    (hC : 0 < C) (hO : O < C) (hfuel : text.length < fuel) :
    ∃ chunks, chunk_text C O text fuel 0 = some chunks ∧
      join_overlap O chunks = text := by
  refine ⟨chunk_text_from C (C - O) text 0, ?_, join_overlap_chunk_text_from C O hO text⟩
  have h := chunk_text_eq_from C O hO text fuel 0 (by omega)
  rw [Nat.cast_zero] at h
  exact h

theorem chunking_overlap_roundtrip_witness :
    0 < 4 ∧ 1 < 4 ∧ "ABCDEFGHIJ".data.length < 11 ∧
      ∃ chunks, chunk_text 4 1 "ABCDEFGHIJ".data 11 0 = some chunks ∧
        join_overlap 1 chunks = "ABCDEFGHIJ".data :=
  ⟨by decide, by decide, by decide,
    chunking_overlap_roundtrip 4 1 11 "ABCDEFGHIJ".data (by decide) (by decide) (by decide)⟩

lemma aggregate_chunks_eq_filterMap {P Ch : Type}
    (process : P → Except String (List Ch)) :
    ∀ l : List P, aggregate_chunks process l =
      (l.filterMap (fun p => (process p).toOption)).flatten := by
  intro l
  induction l with
  | nil => rfl
  | cons p rest ih =>
    rw [aggregate_chunks, List.filterMap_cons]
    cases hp : process p with
    | ok cs => simp [Except.toOption, hp, ih]
    | error e => simp [Except.toOption, hp, ih]

/-- Claim C4: whenever the ingestion run reaches the upsert step, the single
upsert call receives exactly the concatenation, in paper order, of the chunks
of the successfully processed papers — failing papers are skipped and
contribute nothing, and a failure does not abort the papers after it. -/
theorem ingestion_skips_only_failing_papers {P Ch : Type} (maxPapers : Nat)
    (process : P → Except String (List Ch)) (papers : List P)
    (hne : papers ≠ [])
    (hchunks : aggregate_chunks process (papers.take maxPapers) ≠ []) :
    ingestion_upsert_arg maxPapers process papers =
      some (((papers.take maxPapers).filterMap
        (fun p => (process p).toOption)).flatten) := by
  rw [ingestion_upsert_arg]
  rw [if_neg (by simpa using hne)]
  simp only
  rw [if_neg (by simpa using hchunks)]
  rw [aggregate_chunks_eq_filterMap]

theorem ingestion_skips_only_failing_papers_witness :
    ([1, 2, 3] : List Nat) ≠ [] ∧
      aggregate_chunks
        (fun p : Nat => if p = 2 then Except.error "extract" else Except.ok [10 * p])
        (([1, 2, 3] : List Nat).take 10) ≠ [] ∧
      ingestion_upsert_arg 10
        (fun p : Nat => if p = 2 then Except.error "extract" else Except.ok [10 * p])
        [1, 2, 3] = some [10, 30] :=
  ⟨by decide, by decide, by
    rw [ingestion_skips_only_failing_papers 10
      (fun p : Nat => if p = 2 then Except.error "extract" else Except.ok [10 * p])
      [1, 2, 3] (by decide) (by decide)]
    decide⟩


/-- Claim C5: when every retrieved match has empty or absent text, the grounding
context is empty, `generate_answer` returns the fixed fallback string verbatim,
and the completion collaborator is never invoked — for every completion
oracle. -/
theorem empty_context_short_circuits (complete : String → Except String String)
    (topic query : String) (chunks : List ContextChunk)
    (hempty : ∀ c ∈ chunks, chunk_has_text c = false) :
    generate_answer complete topic query chunks =
      { answer := fallback_answer, llm_called := false } := by
  have hfilter : chunks.filter chunk_has_text = [] :=
    List.filter_eq_nil_iff.mpr (by simpa using hempty)
  rw [generate_answer]
  simp only [context_text, hfilter, List.map_nil]
  rfl

theorem empty_context_short_circuits_witness :
    (∀ c ∈ [ContextChunk.mk none (some "T"), ContextChunk.mk (some "") none],
      chunk_has_text c = false) ∧
    generate_answer (fun _ => Except.ok "model reply") "higgs" "what?"
      [ContextChunk.mk none (some "T"), ContextChunk.mk (some "") none] =
      { answer := fallback_answer, llm_called := false } :=
  ⟨by decide,
    empty_context_short_circuits (fun _ => Except.ok "model reply") "higgs" "what?"
      [ContextChunk.mk none (some "T"), ContextChunk.mk (some "") none] (by decide)⟩


lemma connect_all_fails_at (oracle : String → ConnectOutcome) :
    ∀ (servers : List String) (st : MCPState) (k : Nat) (hk : k < servers.length),
      (∀ j, (hj : j < k) → oracle servers[j] = ConnectOutcome.ok) →
      oracle servers[k] ≠ ConnectOutcome.ok →
      ∃ st' e, connect_all oracle st servers = (st', servers.take (k + 1), some e) ∧
        st'.sessions = st.sessions ++ servers.take k := by
  intro servers
  induction servers with
  | nil =>
    intro st k hk
    simp at hk
  | cons n rest ih =>
    intro st k hk hbefore hfail
    match k with
    | 0 =>
      simp only [List.getElem_cons_zero] at hfail
      cases ho : oracle n with
      | ok => exact absurd ho hfail
      | launchFail =>
        exact ⟨st, ExcClass.otherErr,
          by simp [connect_all, connect_server, ho], by simp⟩
      | handshakeTimeout =>
        exact ⟨⟨st.sessions, st.stdio_contexts ++ [n]⟩, ExcClass.timeoutErr,
          by simp [connect_all, connect_server, ho], by simp⟩
      | handshakeFail =>
        exact ⟨⟨st.sessions, st.stdio_contexts ++ [n]⟩, ExcClass.otherErr,
          by simp [connect_all, connect_server, ho], by simp⟩
      | interruptedEarly =>
        exact ⟨st, ExcClass.keyboardInterrupt,
          by simp [connect_all, connect_server, ho], by simp⟩
      | interruptedLate =>
        exact ⟨⟨st.sessions, st.stdio_contexts ++ [n]⟩, ExcClass.keyboardInterrupt,
          by simp [connect_all, connect_server, ho], by simp⟩
    | k' + 1 =>
      have hn : oracle n = ConnectOutcome.ok := by
        have h0 := hbefore 0 (by omega)
        simpa using h0
      obtain ⟨st', e, heq, hsess⟩ :=
        ih ⟨st.sessions ++ [n], st.stdio_contexts ++ [n]⟩ k' (by simpa using hk)
          (fun j hj => by
            have hj1 := hbefore (j + 1) (by omega)
            simpa using hj1)
          (by simpa using hfail)
      refine ⟨st', e, ?_, ?_⟩
      · simp only [connect_all, connect_server, hn]
        rw [heq]
        simp
      · rw [hsess]
        simp

/-- Claim C6: `connect_all` attempts servers strictly sequentially in the
declared order; when server `k` fails or times out, only servers `0..k` are
ever attempted, sessions exist exactly for the `k` servers before it, the
failure propagates out of `connect_all`, and the run trace contains no
ingestion or query phase event. -/
theorem connect_failure_fail_fast (oracle : String → ConnectOutcome)
    (servers : List String) (phase : Phase) (iOut qOut : Option ExcClass)
    (k : Nat) (hk : k < servers.length)
    (hbefore : ∀ j, (hj : j < k) → oracle servers[j] = ConnectOutcome.ok)
    (hfail : oracle servers[k] ≠ ConnectOutcome.ok) :
    ∃ st e, connect_all oracle MCPState.empty servers =
        (st, servers.take (k + 1), some e) ∧
      st.sessions = servers.take k ∧
      Ev.phaseIngestion ∉ main_trace servers oracle phase iOut qOut ∧
      Ev.phaseQuery ∉ main_trace servers oracle phase iOut qOut := by
  obtain ⟨st, e, heq, hsess⟩ :=
    connect_all_fails_at oracle servers MCPState.empty k hk hbefore hfail
  refine ⟨st, e, heq, by simpa [MCPState.empty] using hsess, ?_, ?_⟩
  · simp [main_trace, main_body, heq]
    intro hmem
    obtain ⟨a, -, hEq⟩ := List.mem_map.mp (List.take_subset _ _ hmem)
    exact Ev.noConfusion hEq
  · simp [main_trace, main_body, heq]
    intro hmem
    obtain ⟨a, -, hEq⟩ := List.mem_map.mp (List.take_subset _ _ hmem)
    exact Ev.noConfusion hEq


theorem connect_failure_fail_fast_witness :
    ∃ st e, connect_all demo_connect_oracle MCPState.empty server_order =
        (st, server_order.take 3, some e) ∧
      st.sessions = server_order.take 2 ∧
      Ev.phaseIngestion ∉ main_trace server_order demo_connect_oracle Phase.both none none ∧
      Ev.phaseQuery ∉ main_trace server_order demo_connect_oracle Phase.both none none :=
  connect_failure_fail_fast demo_connect_oracle server_order Phase.both none none 2
    (by decide)
    (by
      intro j hj
      have h2 : j = 0 ∨ j = 1 := by omega
      rcases h2 with rfl | rfl
      · show demo_connect_oracle "arxiv" = ConnectOutcome.ok
        decide
      · show demo_connect_oracle "pinecone" = ConnectOutcome.ok
        decide)
    (by
      show demo_connect_oracle "notion" ≠ ConnectOutcome.ok
      decide)

/-- Claim C7: on every exit path of `main` — normal completion, connect
timeout, interruption, or any other exception from the connect or phase
steps — the finally block invokes the cleanup before the process exits: every
run trace ends with the cleanup event immediately followed by the exit
event. -/
theorem cleanup_on_every_exit_path (servers : List String)
    (oracle : String → ConnectOutcome) (phase : Phase)
    (iOut qOut : Option ExcClass) :
    ∃ evs code, main_trace servers oracle phase iOut qOut =
      evs ++ [Ev.cleanup, Ev.exitCode code] :=
  ⟨(main_body servers oracle phase iOut qOut).1,
    err_exit_code (main_body servers oracle phase iOut qOut).2, rfl⟩

lemma release_loop_eq_filterMap (release : String → Option String) :
    ∀ l : List String, release_loop release l =
      l.filterMap (fun n => (release n).map (fun e => (n, e))) := by
  intro l
  induction l with
  | nil => rfl
  | cons n rest ih =>
    rw [release_loop, List.filterMap_cons]
    cases hr : release n with
    | none => simpa [hr] using ih
    | some e => simpa [hr] using ih

/-- Claim C8 (counterexample): two sessions whose releases take 6 s each
satisfy the claimed per-release 10 s bound, yet the cleanup as coded — the whole
`disconnect_all` call wrapped in a single `asyncio.wait_for(..., timeout=10)`
in main.py — exceeds its shared budget and does not complete, so the code does
not bound each individual release by its own 10 s timeout. -/
theorem disconnect_per_release_timeout_refuted :
    spec_per_release_bounded [6, 6] = true ∧ cleanup_completes [6, 6] = false := by
  decide

/-- Claim C8 (amended): within `disconnect_all` every release failure is
caught and recorded, iteration continues through all remaining contexts (the
caught failures are exactly those of the failing releases, in order), every
release of every stored stdio context is attempted, and both registries are cleared
regardless of individual outcomes; on a registry with zero live sessions it
completes without error and leaves the registries empty; the 10 s timeout is
applied by the caller to the entire call, so cleanup completes exactly when
the summed sequential release time fits that single budget. -/
theorem disconnect_all_best_effort (release : String → Option String)
    (st : MCPState) :
    (disconnect_all release st).1 = MCPState.empty ∧
    (disconnect_all release st).2.1 = st.stdio_contexts ∧
    (disconnect_all release st).2.2 =
      st.stdio_contexts.filterMap (fun n => (release n).map (fun e => (n, e))) ∧
    disconnect_all release MCPState.empty = (MCPState.empty, [], []) ∧
    (∀ ds : List Nat, cleanup_completes ds = decide (seq_release_duration ds ≤ 10)) :=
  ⟨rfl, rfl, release_loop_eq_filterMap release st.stdio_contexts, rfl, fun _ => rfl⟩

/-- Claim C9 (counterexample): the connection-timeout handler and the generic
failure handler of `main` both call `sys.exit(1)`: two distinct terminal
failure classes share the same exit code, refuting the claimed pairwise
distinct mapping. -/
theorem exit_codes_not_distinct :
    exc_exit_code ExcClass.timeoutErr = exc_exit_code ExcClass.otherErr ∧
    ExcClass.timeoutErr ≠ ExcClass.otherErr := by
  decide

/-- Claim C9 (amended): the handlers of main map connection-timeout to exit code 1,
user-interruption to exit code 0 and generic failure to exit code 1:
interruption is distinguished from the other two classes, but timeout and
generic failure share exit code 1. -/
theorem exit_codes_mapping :
    exc_exit_code ExcClass.timeoutErr = 1 ∧
    exc_exit_code ExcClass.keyboardInterrupt = 0 ∧
    exc_exit_code ExcClass.otherErr = 1 := by
  decide

lemma connect_server_invariant (st : MCPState) (name : String) (o : ConnectOutcome)
    (hinv : st.invariant) : (connect_server st name o).1.invariant := by
  cases o <;>
    simp only [connect_server, MCPState.invariant] at * <;>
    intro m hm <;>
    first
      | exact hinv m hm
      | · simp only [List.mem_append, List.mem_singleton] at hm ⊢
          rcases hm with hm | hm
          · exact Or.inl (hinv m hm)
          · exact Or.inr hm
      | · simp only [List.mem_append, List.mem_singleton]
          exact Or.inl (hinv m hm)

lemma connect_all_invariant (oracle : String → ConnectOutcome) :
    ∀ (servers : List String) (st : MCPState), st.invariant →
      (connect_all oracle st servers).1.invariant := by
  intro servers
  induction servers with
  | nil => intro st hinv; exact hinv
  | cons n rest ih =>
    intro st hinv
    rw [connect_all]
    have h1 := connect_server_invariant st n (oracle n) hinv
    cases he : (connect_server st n (oracle n)).2 with
    | some e => simpa [he] using h1
    | none => simpa [he] using ih (connect_server st n (oracle n)).1 h1

/-- Claim C10: the sessions registry is always a subset of the stdio-context
registry: the invariant is preserved by every `connect_server` step (whatever
its outcome) and by a whole `connect_all` run; in particular, when
`connect_server` fails during the handshake, the stdio context of the server is
already registered while no session is stored for it, and `disconnect_all`
still attempts the release of the subprocess of that partially connected server. -/
theorem sessions_subset_stdio_contexts (st : MCPState) (name : String)
    (o : ConnectOutcome) (oracle : String → ConnectOutcome)
    (servers : List String) (release : String → Option String)
    (hinv : st.invariant) :
    (connect_server st name o).1.invariant ∧
    (connect_all oracle st servers).1.invariant ∧
    (o = ConnectOutcome.handshakeTimeout ∨ o = ConnectOutcome.handshakeFail →
      name ∈ (connect_server st name o).1.stdio_contexts ∧
      (name ∉ st.sessions → name ∉ (connect_server st name o).1.sessions) ∧
      name ∈ (disconnect_all release (connect_server st name o).1).2.1) := by
  refine ⟨connect_server_invariant st name o hinv,
    connect_all_invariant oracle servers st hinv, ?_⟩
  rintro (rfl | rfl) <;>
    exact ⟨by simp [connect_server], fun h => by simpa [connect_server] using h,
      by simp [connect_server, disconnect_all]⟩

theorem sessions_subset_stdio_contexts_witness :
    MCPState.empty.invariant ∧
    ((connect_server MCPState.empty "arxiv" ConnectOutcome.handshakeFail).1.invariant ∧
      (connect_all demo_connect_oracle MCPState.empty server_order).1.invariant ∧
      (ConnectOutcome.handshakeFail = ConnectOutcome.handshakeTimeout ∨
        ConnectOutcome.handshakeFail = ConnectOutcome.handshakeFail →
        "arxiv" ∈ (connect_server MCPState.empty "arxiv"
          ConnectOutcome.handshakeFail).1.stdio_contexts ∧
        ("arxiv" ∉ MCPState.empty.sessions →
          "arxiv" ∉ (connect_server MCPState.empty "arxiv"
            ConnectOutcome.handshakeFail).1.sessions) ∧
        "arxiv" ∈ (disconnect_all (fun _ => none) (connect_server MCPState.empty "arxiv"
          ConnectOutcome.handshakeFail).1).2.1)) :=
  ⟨fun n h => absurd h (List.not_mem_nil n),
    sessions_subset_stdio_contexts MCPState.empty "arxiv" ConnectOutcome.handshakeFail
      demo_connect_oracle server_order (fun _ => none)
      (fun n h => absurd h (List.not_mem_nil n))⟩

end ArxivRag
